import Mathlib

/-!
Verification of the EDM-completion module (`pylocus/edm_completion.py`).

The module offers three completers for partially observed Euclidean distance
matrices: `optspace`, `rank_alternation` and `semidefinite_relaxation`.
External collaborators (the OptSpace factorization solver, the low-rank
projection `low_rank_approximation`, and the cvxpy convex solver) are not part
of the module; they enter the embedding as explicit parameters.

The `rank_alternation` / `optspace` side is embedded over `ℚ` (numpy float
arithmetic on these paths is exact field arithmetic: means, averages,
comparisons), which keeps every definition decidable.  The semidefinite side
uses `ℝ` because the centering basis `V` involves `sqrt n`.
-/

/-- An N by N real matrix of the rank-alternation / optspace side, over `ℚ`. -/
abbrev MatQ (n : ℕ) := Fin n → Fin n → ℚ

/-- Number of observed entries of a masked EDM: entries with `D[i,j] > 0`
(the boolean mask `edm_missing > 0`). -/
def numObserved {n : ℕ} (D : MatQ n) : ℕ :=
  ∑ i, ∑ j, if 0 < D i j then 1 else 0

/-- Sum of the observed entries of a masked EDM (`edm_complete[edm_complete > 0]`). -/
def sumObserved {n : ℕ} (D : MatQ n) : ℚ :=
  ∑ i, ∑ j, if 0 < D i j then D i j else 0

/-- `np.mean(edm_complete[edm_complete > 0])`.  When no entry is observed the
selection is empty: numpy produces NaN (with a runtime warning only); in `ℚ`
the division by the zero count yields the junk value `0`.  Either way the code
has no error path here. -/
def meanObserved {n : ℕ} (D : MatQ n) : ℚ :=
  sumObserved D / (numObserved D : ℚ)

/-- `edm_complete = edm_missing.copy(); edm_complete[edm_complete == 0] = mean(...)`:
the zero (unobserved) entries of the working copy are set to the mean of the
observed entries. -/
def initComplete {n : ℕ} (D : MatQ n) : MatQ n :=
  fun i j => if D i j = 0 then meanObserved D else D i j

/-- `edm_complete[edm_missing > 0] = edm_missing[edm_missing > 0]`:
re-impose the measured entries on the current estimate. -/
def imposeKnown {n : ℕ} (D E : MatQ n) : MatQ n :=
  fun i j => if 0 < D i j then D i j else E i j

/-- `edm_complete[range(N), range(N)] = 0.0`: zero the diagonal. -/
def zeroDiag {n : ℕ} (E : MatQ n) : MatQ n :=
  fun i j => if i = j then 0 else E i j

/-- `edm_complete[edm_complete < 0] = 0.0`: clip negative entries to zero. -/
def clipNeg {n : ℕ} (E : MatQ n) : MatQ n :=
  fun i j => if E i j < 0 then 0 else E i j

/-- `edm_complete = 0.5 * (edm_complete + edm_complete.T)`: symmetrize by
averaging with the transpose. -/
def symAvg {n : ℕ} (E : MatQ n) : MatQ n :=
  fun i j => 0.5 * (E i j + E j i)

/-- The "impose matrix structure" block of `rank_alternation`
(zero diagonal, then clip negatives, then symmetrize). -/
def imposeStructure {n : ℕ} (E : MatQ n) : MatQ n :=
  symAvg (clipNeg (zeroDiag E))

/-- One iteration of the `rank_alternation` loop: project to low rank via the
external primitive `lowRank` (the module imports `low_rank_approximation` from
`basics`; it is a collaborator, passed here as a function of the matrix and the
target rank), then re-impose the known entries, then the EDM structure. -/
def rankAltStep {n : ℕ} (lowRank : MatQ n → ℕ → MatQ n) (D : MatQ n)
    (rank : ℕ) (E : MatQ n) : MatQ n :=
  imposeStructure (imposeKnown D (lowRank E rank))

/-- `for i in range(niter): ...` — iterate the loop body `niter` times. -/
def rankAltIter {n : ℕ} (lowRank : MatQ n → ℕ → MatQ n) (D : MatQ n)
    (rank : ℕ) : ℕ → MatQ n → MatQ n
  | 0, E => E
  | k + 1, E => rankAltStep lowRank D rank (rankAltIter lowRank D rank k E)

/-- `rank_alternation(edm_missing, rank, niter)`: initialize the unobserved
entries to the mean of the observed ones and run the alternation loop.  The
optional `edm_true` error trace (lines 62-64 of the source) is diagnostic
only — it reads the estimate and ground truth and never feeds back into the
returned matrix — so the embedding returns the completed matrix. -/
def rank_alternation {n : ℕ} (lowRank : MatQ n → ℕ → MatQ n) (D : MatQ n)
    (rank niter : ℕ) : MatQ n :=
  rankAltIter lowRank D rank niter (initComplete D)

/-- `X.dot(S.dot(Y.T))`: reconstruction from the factors returned by the
external OptSpace solver. -/
def xsyT {n r : ℕ} (X : Fin n → Fin r → ℚ) (S : Fin r → Fin r → ℚ)
    (Y : Fin n → Fin r → ℚ) : MatQ n :=
  fun i j => ∑ k, X i k * ∑ l, S k l * Y j l

/-- `optspace(edm_missing, rank, ...)`: the external `opt_space` solver returns
factors `X, S, Y` (parameters of the embedding); the function reconstructs
`X.dot(S.dot(Y.T))` and zeroes the diagonal (`edm_complete[range(N), range(N)] = 0.0`).
No other post-processing is applied. -/
def optspace {n r : ℕ} (X : Fin n → Fin r → ℚ) (S : Fin r → Fin r → ℚ)
    (Y : Fin n → Fin r → ℚ) : MatQ n :=
  fun i j => if i = j then 0 else xsyT X S Y i j

/-! ## Semidefinite relaxation (`semidefinite_relaxation`)

The cvxpy machinery is embedded semantically: the symbolic expressions built
over the `Semidef(n-1)` variable `H` are represented by their denotations,
i.e. functions of the value of `H`; the external convex solver is a parameter
that receives the assembled objective and returns `H.value`
(`some` value on success, `none` when the solver produced no value). -/

/-- An N by N real matrix on the semidefinite-relaxation side. -/
abbrev MatR (n : ℕ) := Fin n → Fin n → ℝ

/-- The value of the `Semidef(n - 1)` variable `H`: an (n-1) by (n-1) matrix. -/
abbrev HMatR (n : ℕ) := Fin (n - 1) → Fin (n - 1) → ℝ

/-- `np.diag(gram)` as a vector. -/
def diagVec {n : ℕ} (G : MatR n) : Fin n → ℝ := fun i => G i i

/-- `np.outer(u, v)`. -/
def outerProd {n : ℕ} (u v : Fin n → ℝ) : MatR n := fun i j => u i * v j

/-- `e = np.ones(n)`. -/
def onesVec (n : ℕ) : Fin n → ℝ := fun _ => 1

/-- The numeric kernel transform `kappa`:
`np.outer(np.diag(gram), e) + np.outer(e, np.diag(gram).T) - 2 * gram`. -/
def kappa {n : ℕ} (gram : MatR n) : MatR n :=
  fun i j =>
    outerProd (diagVec gram) (onesVec n) i j
      + outerProd (onesVec n) (diagVec gram) i j
      - 2 * gram i j

/-- `e = np.ones((n, 1))`: a column vector of ones, as an n by 1 matrix. -/
def onesColMat (n : ℕ) : Fin n → Fin 1 → ℝ := fun _ _ => 1

/-- cvxpy `diag(gram)`: the diagonal as a column (n by 1) matrix. -/
def diagColMat {n : ℕ} (G : MatR n) : Fin n → Fin 1 → ℝ := fun i _ => G i i

/-- The symbolic kernel transform `kappa_cvx`, denotationally:
`diag(gram) * e.T + e * diag(gram).T - 2 * gram`, where `*` is the matrix
product of an (n,1) with a (1,n) matrix. -/
def kappa_cvx {n : ℕ} (gram : MatR n) : MatR n :=
  fun i j =>
    (∑ k : Fin 1, diagColMat gram i k * onesColMat n j k)
      + (∑ k : Fin 1, onesColMat n i k * diagColMat gram j k)
      - 2 * gram i j

noncomputable section

/-- The centering basis
`V = np.c_[-np.ones(n-1)/np.sqrt(n), np.eye(n-1) - np.ones([n-1,n-1])/(n+np.sqrt(n))].T`:
an n by (n-1) matrix whose first row is `-1/sqrt(n)` and whose remaining rows
are `eye - ones/(n + sqrt n)`. -/
def Vmat (n : ℕ) : Fin n → Fin (n - 1) → ℝ :=
  fun i j =>
    if i.val = 0 then -1 / Real.sqrt n
    else (if i.val = j.val + 1 then 1 else 0) - 1 / (n + Real.sqrt n)

/-- `G = V * H * V.T` (cvxpy overloaded `*`), as a function of the value of `H`;
also the numeric `Gbest = V * H.value * V.T`. -/
def VHVt {n : ℕ} (Hv : HMatR n) : MatR n :=
  fun i j => ∑ k, ∑ l, Vmat n i k * Hv k l * Vmat n j l

/-- `trace(H)`. -/
def traceH {n : ℕ} (Hv : HMatR n) : ℝ := ∑ i, Hv i i

/-- cvxpy `mul_elemwise`. -/
def elemMul {n : ℕ} (A B : MatR n) : MatR n := fun i j => A i j * B i j

/-- Elementwise matrix difference `A - B`. -/
def matSub {n : ℕ} (A B : MatR n) : MatR n := fun i j => A i j - B i j

/-- The matrix norm applied by cvxpy's `norm` to the masked residual
(Frobenius norm). -/
def frobNorm {n : ℕ} (A : MatR n) : ℝ :=
  Real.sqrt (∑ i, ∑ j, (A i j) ^ 2)

/-- The weight matrix actually used by `semidefinite_relaxation`:
`if W is None: W = (edm_missing > 0)` (a boolean mask, used numerically as
0/1), `else: W[edm_missing == 0] = 0.0` (the supplied weights, zeroed at the
unobserved entries — note this writes into the caller's array). -/
def sdrWeight {n : ℕ} (D : MatR n) (W : Option (MatR n)) : MatR n :=
  match W with
  | none => fun i j => if 0 < D i j then 1 else 0
  | some w => fun i j => if D i j = 0 then 0 else w i j

/-- Whether the objective wraps its expression in `Maximize` or `Minimize`. -/
inductive SDRObjKind where
  | maximize : SDRObjKind
  | minimize : SDRObjKind

/-- The assembled objective handed to the external convex solver: its kind and
the denotation of its scalar expression as a function of the value of `H`. -/
structure SDRObj (n : ℕ) where
  kind : SDRObjKind
  expr : HMatR n → ℝ

/-- `norm(mul_elemwise(W, (edm_optimize - edm_missing)))` where
`edm_optimize = kappa_cvx(G, n)` and `G = V * H * V.T`, as a function of the
value of `H`. -/
def sdrPenalty {n : ℕ} (D Wf : MatR n) (Hv : HMatR n) : ℝ :=
  frobNorm (elemMul Wf (matSub (kappa_cvx (VHVt Hv)) D))

/-- The `method` dispatch of `semidefinite_relaxation`:
`if method == 'maximize': obj = Maximize(trace(H) - lamda * norm(...))`,
`elif method == 'minimize': obj = Minimize(trace(H) + lamda * norm(...))`.
For any other value of `method` no objective is ever assigned, and the
subsequent `Problem(obj)` fails with an unbound local variable (`none` here). -/
def sdrObjective {n : ℕ} (D : MatR n) (lamda : ℝ) (Wf : MatR n)
    (method : String) : Option (SDRObj n) :=
  if method = "maximize" then
    some ⟨SDRObjKind.maximize, fun Hv => traceH Hv - lamda * sdrPenalty D Wf Hv⟩
  else if method = "minimize" then
    some ⟨SDRObjKind.minimize, fun Hv => traceH Hv + lamda * sdrPenalty D Wf Hv⟩
  else none

/-- The result extraction: `if H.value is not None: edm_complete = kappa(V * H.value * V.T)`,
`else: edm_complete = edm_missing`. -/
def sdrComplete {n : ℕ} (D : MatR n) (Hval : Option (HMatR n)) : MatR n :=
  match Hval with
  | some Hv => kappa (VHVt Hv)
  | none => D

/-- `semidefinite_relaxation(edm_missing, lamda, W, method=...)`.  The external
convex solver (`prob.solve` together with the backend options) is the
parameter `solver`: it receives the assembled objective and yields `H.value`.
Returns the pair of

* the completed EDM (`none` models the unbound-variable failure when `method`
  is neither `'maximize'` nor `'minimize'`), and
* the final state of the weight array, which for a caller-supplied `W` is the
  caller's own (mutated) array.

The `print_out` diagnostics only read the result and are omitted. -/
def semidefinite_relaxation {n : ℕ} (solver : SDRObj n → Option (HMatR n))
    (D : MatR n) (lamda : ℝ) (W : Option (MatR n)) (method : String) :
    Option (MatR n) × MatR n :=
  let Wf := sdrWeight D W
  match sdrObjective D lamda Wf method with
  | none => (none, Wf)
  | some obj => (some (sdrComplete D (solver obj)), Wf)

end

/-! ## Claims -/

/-- Helper: the low-rank projection used in concrete runs.  When
`rank >= N`, the external `low_rank_approximation` (truncated spectral
decomposition) keeps every component, i.e. acts as the identity; the identity
is also the simplest admissible collaborator for runs where the projection's
value is irrelevant. -/
def idLowRank {n : ℕ} : MatQ n → ℕ → MatQ n := fun E _ => E

/-- Helper: `.2` of `semidefinite_relaxation` is the final weight array,
whatever the solver and method do. -/
theorem sdr_snd {n : ℕ} (solver : SDRObj n → Option (HMatR n)) (D : MatR n)
    (lamda : ℝ) (W : Option (MatR n)) (method : String) :
    (semidefinite_relaxation solver D lamda W method).2 = sdrWeight D W := by
  rcases h : sdrObjective D lamda (sdrWeight D W) method with _ | obj <;>
    simp [semidefinite_relaxation, h]

/-- The masked EDM `[[5, 2], [4, 0]]`: a positive diagonal entry at (0,0) and
an asymmetric pair of observations at (0,1)/(1,0). -/
def D1cex : MatQ 2 :=
  fun i j => if i = 0 then (if j = 0 then 5 else 2) else (if j = 0 then 4 else 0)

/-- C1 (counterexample): on `[[5, 2], [4, 0]]` with one iteration, the observed
entry (0,0) = 5 comes back as 0 (the structure step zeroes the diagonal) and
the observed entry (0,1) = 2 comes back as 3 (the symmetrization averages the
two asymmetric observations 2 and 4) — so observed entries are not preserved
exactly.  The docstring itself warns the result "might not have the right
measured entries". -/
theorem rank_alternation_measurement_cex :
    0 < D1cex 0 0 ∧ 0 < D1cex 0 1
      ∧ rank_alternation idLowRank D1cex 1 1 0 0 ≠ D1cex 0 0
      ∧ rank_alternation idLowRank D1cex 1 1 0 1 ≠ D1cex 0 1 := by
  refine ⟨by norm_num [D1cex], by norm_num [D1cex], ?_, ?_⟩ <;>
    norm_num [rank_alternation, rankAltIter, rankAltStep, imposeStructure, symAvg,
      clipNeg, zeroDiag, imposeKnown, initComplete, meanObserved, sumObserved,
      numObserved, idLowRank, D1cex, Fin.sum_univ_two]

/-- C1 (amended): for a symmetric masked EDM, every observed off-diagonal
entry is reproduced exactly by `rank_alternation`, for any external low-rank
projection, any rank, and any `niter >= 1`. -/
theorem rank_alternation_keeps_observed_symm {n : ℕ}
    (lowRank : MatQ n → ℕ → MatQ n) (D : MatQ n) (rank k : ℕ) (i j : Fin n)
    (hsym : ∀ a b, D a b = D b a) (hij : i ≠ j) (hpos : 0 < D i j) :
    rank_alternation lowRank D rank (k + 1) i j = D i j := by
  have hji : 0 < D j i := by rw [hsym j i]; exact hpos
  show rankAltStep lowRank D rank (rankAltIter lowRank D rank k (initComplete D)) i j
      = D i j
  simp only [rankAltStep, imposeStructure, symAvg, clipNeg, zeroDiag, imposeKnown]
  simp only [if_neg hij, if_neg (Ne.symm hij), if_pos hpos, if_pos hji]
  simp only [if_neg (not_lt.mpr (le_of_lt hpos)), if_neg (not_lt.mpr (le_of_lt hji))]
  rw [hsym j i]
  ring

/-- The symmetric masked EDM `[[0, 2], [2, 0]]`. -/
def D1w : MatQ 2 := fun i j => if i = j then 0 else 2

/-- Witness for C1 (amended) at `[[0, 2], [2, 0]]`, entry (0,1), one iteration. -/
theorem rank_alternation_keeps_observed_symm_witness :
    rank_alternation idLowRank D1w 1 1 0 1 = D1w 0 1 :=
  rank_alternation_keeps_observed_symm idLowRank D1w 1 0 0 1
    (by decide) (by decide) (by decide)

/-- The all-ones masked EDM: every entry, diagonal included, is "observed". -/
def D2cex : MatR 2 := fun _ _ => 1

/-- C2 (counterexample): when the solver produces no value for `H`,
`semidefinite_relaxation` returns its input verbatim; on an input with a
nonzero diagonal the returned matrix has a nonzero diagonal. -/
theorem sdr_fallback_nonzero_diag_cex :
    (semidefinite_relaxation (fun _ => none) D2cex 1 none "maximize").1 = some D2cex
      ∧ D2cex 0 0 ≠ 0 := by
  constructor
  · simp [semidefinite_relaxation, sdrObjective, sdrComplete]
  · norm_num [D2cex]

/-- C2 (amended): `optspace` always returns a zero-diagonal matrix;
`rank_alternation` does for every `niter >= 1`; `semidefinite_relaxation` does
whenever the solver produced a value for `H` (on solver failure the input is
returned unchanged, its diagonal included). -/
theorem completers_zero_diagonal :
    (∀ (n r : ℕ) (X : Fin n → Fin r → ℚ) (S : Fin r → Fin r → ℚ)
        (Y : Fin n → Fin r → ℚ) (i : Fin n), optspace X S Y i i = 0)
    ∧ (∀ (n : ℕ) (lowRank : MatQ n → ℕ → MatQ n) (D : MatQ n) (rank k : ℕ)
        (i : Fin n), rank_alternation lowRank D rank (k + 1) i i = 0)
    ∧ (∀ (n : ℕ) (D : MatR n) (lamda : ℝ) (W : Option (MatR n)) (Hval : HMatR n),
        ((semidefinite_relaxation (fun _ => some Hval) D lamda W "maximize").1
            = some (kappa (VHVt Hval))
          ∧ (semidefinite_relaxation (fun _ => some Hval) D lamda W "minimize").1
            = some (kappa (VHVt Hval)))
          ∧ ∀ i : Fin n, kappa (VHVt Hval) i i = 0) := by
  refine ⟨?_, ?_, ?_⟩
  · intro n r X S Y i
    simp [optspace]
  · intro n lowRank D rank k i
    show rankAltStep lowRank D rank (rankAltIter lowRank D rank k (initComplete D)) i i
        = 0
    simp [rankAltStep, imposeStructure, symAvg, clipNeg, zeroDiag]
  · intro n D lamda W Hval
    refine ⟨⟨?_, ?_⟩, ?_⟩
    · simp [semidefinite_relaxation, sdrObjective, sdrComplete]
    · simp [semidefinite_relaxation, sdrObjective, sdrComplete]
    · intro i
      simp [kappa, outerProd, diagVec, onesVec]
      ring

/-- C3 (confirmed): if the solver produces no value for `H`, the completed EDM
returned by `semidefinite_relaxation` is the input masked EDM, unchanged. -/
theorem sdr_solver_failure_returns_input {n : ℕ}
    (solver : SDRObj n → Option (HMatR n)) (hs : ∀ o, solver o = none)
    (D : MatR n) (lamda : ℝ) (W : Option (MatR n)) (method : String)
    (hm : method = "maximize" ∨ method = "minimize") :
    (semidefinite_relaxation solver D lamda W method).1 = some D := by
  rcases hm with h | h <;> subst h <;>
    simp [semidefinite_relaxation, sdrObjective, hs, sdrComplete]

/-- A concrete masked EDM for the C3 witness. -/
def D3w : MatR 2 := fun i j => if i = j then 0 else 1

/-- Witness for C3 with an always-failing solver. -/
theorem sdr_solver_failure_returns_input_witness :
    (semidefinite_relaxation (fun _ => none) D3w 1 none "maximize").1 = some D3w :=
  sdr_solver_failure_returns_input (fun _ => none) (fun _ => rfl) D3w 1 none
    "maximize" (Or.inl rfl)

/-- C4 (confirmed): the symbolic and numeric kernel transforms agree entrywise
on every symmetric matrix, and both compute `G[i,i] + G[j,j] - 2 G[i,j]`. -/
theorem kappa_cvx_eq_kappa {n : ℕ} (G : MatR n) (hsym : ∀ i j, G i j = G j i) :
    ∀ i j, kappa_cvx G i j = kappa G i j
      ∧ kappa G i j = G i i + G j j - 2 * G i j := by
  intro i j
  constructor <;>
    simp [kappa_cvx, kappa, diagColMat, onesColMat, diagVec, onesVec, outerProd,
      Fin.sum_univ_one]

/-- A concrete symmetric Gram-like matrix for the C4 witness. -/
def G4w : MatR 2 := fun _ _ => 1

/-- Witness for C4 at the all-ones symmetric matrix, entry (0,1). -/
theorem kappa_cvx_eq_kappa_witness :
    kappa_cvx G4w 0 1 = kappa G4w 0 1
      ∧ kappa G4w 0 1 = G4w 0 0 + G4w 1 1 - 2 * G4w 0 1 :=
  kappa_cvx_eq_kappa G4w (fun _ _ => rfl) 0 1

/-- All-unobserved masked EDM for the C5 counterexample. -/
def D5cex : MatR 2 := fun _ _ => 0

/-- All-ones caller-supplied weight matrix for the C5 counterexample. -/
def W5cex : MatR 2 := fun _ _ => 1

/-- C5 (counterexample): `semidefinite_relaxation` writes into the
caller-supplied weight array: after the call `W[0,0]` is 0, not its original
value 1 (the statement `W[edm_missing == 0] = 0.0` mutates `W` in place). -/
theorem sdr_W_mutated_cex :
    (semidefinite_relaxation (fun _ => none) D5cex 1 (some W5cex) "maximize").2 0 0
      ≠ W5cex 0 0 := by
  rw [sdr_snd]
  norm_num [sdrWeight, D5cex, W5cex]

/-- C5 (amended): the masked EDM is never written to by any completer
(`rank_alternation` works on a copy; no statement assigns into `edm_missing`),
but `semidefinite_relaxation` zeroes the caller-supplied `W` in place wherever
the masked EDM is unobserved; `W` is unchanged exactly when it already carries
zero weight on every unobserved entry. -/
theorem sdr_W_unchanged_when_masked {n : ℕ}
    (solver : SDRObj n → Option (HMatR n)) (D : MatR n) (lamda : ℝ)
    (W : MatR n) (method : String) (hW : ∀ i j, D i j = 0 → W i j = 0) :
    (semidefinite_relaxation solver D lamda (some W) method).2 = W := by
  rw [sdr_snd]
  funext i j
  by_cases h : D i j = 0
  · simp only [sdrWeight, if_pos h]
    exact (hW i j h).symm
  · simp only [sdrWeight, if_neg h]

/-- Masked EDM for the C5 witness. -/
def D5w : MatR 2 := fun i j => if i = j then 0 else 1

/-- Weight matrix for the C5 witness: zero weight on the unobserved entries. -/
def W5w : MatR 2 := fun i j => if i = j then 0 else 3

/-- Witness for C5 (amended): a weight matrix already zero on unobserved
entries survives the call unchanged. -/
theorem sdr_W_unchanged_when_masked_witness :
    (semidefinite_relaxation (fun _ => none) D5w 1 (some W5w) "maximize").2 = W5w :=
  sdr_W_unchanged_when_masked (fun _ => none) D5w 1 W5w "maximize" (by
    intro i j h
    fin_cases i <;> fin_cases j <;> simp_all [D5w, W5w])

/-- The all-zero 2 by 2 masked EDM: no observed entries at all. -/
def Dzero : MatQ 2 := fun _ _ => 0

/-- C6: with zero observed entries `rank_alternation` does not fail fast: it
has no error path at all.  The observed count is 0, the initialization mean is
the mean of an empty selection (NaN in numpy, the junk value 0 over `ℚ`), and
the function still returns a matrix normally. -/
theorem rank_alternation_degenerate_no_failfast :
    numObserved Dzero = 0 ∧ rank_alternation idLowRank Dzero 1 1 = Dzero := by
  constructor
  · norm_num [numObserved, Dzero, Fin.sum_univ_two]
  · funext i j
    fin_cases i <;> fin_cases j <;>
      norm_num [rank_alternation, rankAltIter, rankAltStep, imposeStructure, symAvg,
        clipNeg, zeroDiag, imposeKnown, initComplete, meanObserved, sumObserved,
        numObserved, idLowRank, Dzero, Fin.sum_univ_two]

/-- The 2 by 2 masked EDM `[[0, 1], [1, 0]]`. -/
def D7 : MatQ 2 := fun i j => if i = j then 0 else 1

/-- C7: `rank_alternation` performs no input validation whatsoever: for every
`rank` — including every `rank >= N = 2`, where `low_rank_approximation` keeps
all components, i.e. is the identity — the call on the 2 by 2 input returns a
completed matrix normally instead of surfacing an InvalidInput error. -/
theorem rank_alternation_no_rank_validation :
    ∀ rank : ℕ, rank_alternation idLowRank D7 rank 1 = D7 := by
  intro rank
  funext i j
  fin_cases i <;> fin_cases j <;>
    norm_num [rank_alternation, rankAltIter, rankAltStep, imposeStructure, symAvg,
      clipNeg, zeroDiag, imposeKnown, initComplete, meanObserved, sumObserved,
      numObserved, idLowRank, D7, Fin.sum_univ_two]

/-- OptSpace factor X for the C8 counterexample. -/
def X8cex : Fin 2 → Fin 1 → ℚ := fun i _ => if i = 0 then 1 else 0

/-- OptSpace factor S for the C8 counterexample. -/
def S8cex : Fin 1 → Fin 1 → ℚ := fun _ _ => 1

/-- OptSpace factor Y for the C8 counterexample. -/
def Y8cex : Fin 2 → Fin 1 → ℚ := fun j _ => if j = 1 then 1 else 0

/-- C8 (counterexample): with factors whose reconstruction `X S Yᵗ` is the
asymmetric `[[0, 1], [0, 0]]`, `optspace` returns an asymmetric matrix: it
never symmetrizes, it only zeroes the diagonal. -/
theorem optspace_asymmetric_cex :
    optspace X8cex S8cex Y8cex 0 1 ≠ optspace X8cex S8cex Y8cex 1 0 := by
  norm_num [optspace, xsyT, X8cex, S8cex, Y8cex, Fin.sum_univ_one]

/-- C8 (amended): `optspace` only zeroes the diagonal of the reconstruction
`X S Yᵗ`; its output is symmetric whenever the solver's reconstruction is
itself symmetric. -/
theorem optspace_symmetric_of_factors {n r : ℕ} (X : Fin n → Fin r → ℚ)
    (S : Fin r → Fin r → ℚ) (Y : Fin n → Fin r → ℚ)
    (hsym : ∀ i j, xsyT X S Y i j = xsyT X S Y j i) (i j : Fin n) :
    optspace X S Y i j = optspace X S Y j i := by
  by_cases h : i = j
  · subst h; rfl
  · simp [optspace, h, Ne.symm h, hsym i j]

/-- All-ones OptSpace factor X for the C8 witness. -/
def X8w : Fin 2 → Fin 1 → ℚ := fun _ _ => 1

/-- All-ones OptSpace factor S for the C8 witness. -/
def S8w : Fin 1 → Fin 1 → ℚ := fun _ _ => 1

/-- All-ones OptSpace factor Y for the C8 witness. -/
def Y8w : Fin 2 → Fin 1 → ℚ := fun _ _ => 1

/-- Witness for C8 (amended) at all-ones factors (symmetric reconstruction). -/
theorem optspace_symmetric_of_factors_witness :
    optspace X8w S8w Y8w 0 1 = optspace X8w S8w Y8w 1 0 :=
  optspace_symmetric_of_factors X8w S8w Y8w (fun _ _ => rfl) 0 1

/-- C9 (confirmed): the structural-imposition step of `rank_alternation`
(zero the diagonal, clip negatives, symmetrize by averaging) returns any
matrix with zero diagonal, no negative entries and equal to its transpose
unchanged. -/
theorem imposeStructure_id_on_valid {n : ℕ} (A : MatQ n)
    (hdiag : ∀ i, A i i = 0) (hnn : ∀ i j, 0 ≤ A i j)
    (hsym : ∀ i j, A i j = A j i) :
    imposeStructure A = A := by
  have hz : zeroDiag A = A := by
    funext a b
    by_cases h : a = b
    · subst h; simp [zeroDiag, hdiag]
    · simp [zeroDiag, h]
  have hc : clipNeg A = A := by
    funext a b
    simp [clipNeg, not_lt.mpr (hnn a b)]
  funext a b
  show symAvg (clipNeg (zeroDiag A)) a b = A a b
  rw [hz, hc]
  show 0.5 * (A a b + A b a) = A a b
  rw [hsym b a]
  ring

/-- A valid 2 by 2 EDM for the C9 witness. -/
def A9w : MatQ 2 := fun i j => if i = j then 0 else 1

/-- Witness for C9 at `[[0, 1], [1, 0]]`. -/
theorem imposeStructure_id_on_valid_witness : imposeStructure A9w = A9w :=
  imposeStructure_id_on_valid A9w (by decide) (by decide) (by decide)

/-- C10 (confirmed): for any `method` other than `'maximize'` / `'minimize'`
no objective is ever assigned, and `semidefinite_relaxation` fails with the
unbound-variable error (modelled as `none`) before any solver is invoked —
the result is `none` for every solver. -/
theorem sdr_invalid_method_unbound {n : ℕ}
    (solver : SDRObj n → Option (HMatR n)) (D : MatR n) (lamda : ℝ)
    (W : Option (MatR n)) (method : String)
    (h1 : method ≠ "maximize") (h2 : method ≠ "minimize") :
    (semidefinite_relaxation solver D lamda W method).1 = none := by
  simp [semidefinite_relaxation, sdrObjective, h1, h2]

/-- Witness for C10 at `method = "solve"`. -/
theorem sdr_invalid_method_unbound_witness :
    (semidefinite_relaxation (fun _ => none) (fun _ _ => (0 : ℝ) : MatR 2) 1 none
        "solve").1 = none :=
  sdr_invalid_method_unbound (fun _ => none) (fun _ _ => (0 : ℝ)) 1 none "solve"
    (by decide) (by decide)
